import Mathlib

/-
Verification of the Flow-to-Graph Ingestion & Entity-Reconciliation Engine of
the LightRag-ThreatHunting repository.

Part A embeds the Graph Fragment Builder code `convert_to_custom_kg`
(src/KG-Notes.md, lines 653-719) as executable Lean definitions.
Part B models the Entity/Relationship Reconciler from the specification
(its implementation is not present in the repository sources).
Part C models the Flow Aggregation Table, Flow Finalizer and batch ingestion
from the specification (their implementation, cicflowmeter_helpers.py, is
referenced by the docs under examples/ but is not present in the sources).
-/

namespace ThreatHunting

/-- The fields of one flow dictionary that `convert_to_custom_kg` reads:
`flow["Flow ID"]`, `flow["Src IP"]`, `flow["Dst IP"]`, `flow["Timestamp"]`. -/
structure Flow where
  flow_id : String
  src_ip : String
  dst_ip : String
  timestamp : String
deriving DecidableEq, Repr

/-- A chunk of the custom knowledge-graph fragment: `{"content": ..., "source_id": ...}`. -/
structure KGChunk where
  content : String
  source_id : String
deriving DecidableEq, Repr

/-- An entity of the custom knowledge-graph fragment:
`{"entity_name": ..., "entity_type": ..., "description": ..., "source_id": ...}`. -/
structure KGEntity where
  entity_name : String
  entity_type : String
  description : String
  source_id : String
deriving DecidableEq, Repr

/-- A relationship of the custom knowledge-graph fragment:
`{"src_id": ..., "tgt_id": ..., "description": ..., "keywords": ..., "weight": ..., "source_id": ...}`. -/
structure KGRelationship where
  src_id : String
  tgt_id : String
  description : String
  keywords : String
  weight : ℚ
  source_id : String
deriving DecidableEq, Repr

/-- The `custom_kg` dictionary: chunks, entities, relationships. -/
structure CustomKG where
  chunks : List KGChunk
  entities : List KGEntity
  relationships : List KGRelationship
deriving DecidableEq, Repr

/-- The chunk built for one flow:
`f"Flow ID: {flow['Flow ID']} from {flow['Src IP']} to {flow['Dst IP']} at {flow['Timestamp']}"`
with `source_id = flow_id`. -/
def chunkOfFlow (f : Flow) : KGChunk :=
  { content := "Flow ID: " ++ f.flow_id ++ " from " ++ f.src_ip ++ " to " ++
      f.dst_ip ++ " at " ++ f.timestamp
    source_id := f.flow_id }

/-- The two IP entities built for one flow, one for `(flow["Src IP"], "Src IP")`
and one for `(flow["Dst IP"], "Dst IP")`, each with type `"IP Address"` and
description `f"{ip} is the {role}."`. -/
def entitiesOfFlow (f : Flow) : List KGEntity :=
  [ { entity_name := f.src_ip
      entity_type := "IP Address"
      description := f.src_ip ++ " is the Src IP."
      source_id := f.flow_id }
  , { entity_name := f.dst_ip
      entity_type := "IP Address"
      description := f.dst_ip ++ " is the Dst IP."
      source_id := f.flow_id } ]

/-- The single relationship built for one flow, between Src and Dst:
description `f"Data flow from {flow['Src IP']} to {flow['Dst IP']}."`,
keywords `"data flow communication"`, weight `1.0`, `source_id = flow_id`. -/
def relationshipOfFlow (f : Flow) : KGRelationship :=
  { src_id := f.src_ip
    tgt_id := f.dst_ip
    description := "Data flow from " ++ f.src_ip ++ " to " ++ f.dst_ip ++ "."
    keywords := "data flow communication"
    weight := 1
    source_id := f.flow_id }

/-- `convert_to_custom_kg(flows)` from src/KG-Notes.md lines 653-719: for each
flow it appends one chunk, two IP entities and one Src-to-Dst relationship,
each carrying the flow's `Flow ID` as `source_id`. -/
def convert_to_custom_kg : List Flow → CustomKG
  | [] => { chunks := [], entities := [], relationships := [] }
  | f :: rest =>
    let kg := convert_to_custom_kg rest
    { chunks := chunkOfFlow f :: kg.chunks
      entities := entitiesOfFlow f ++ kg.entities
      relationships := relationshipOfFlow f :: kg.relationships }

/-- The end-to-end example flow of the specification:
src=131.202.240.150:50459, dst=23.45.42.52:80, protocol=TCP. -/
def exampleFlow : Flow :=
  { flow_id := "flow-1"
    src_ip := "131.202.240.150"
    dst_ip := "23.45.42.52"
    timestamp := "31/03/2015 11:07:01 AM" }

/-- Modelled from the spec: the accumulation primitive used throughout the
Entity/Relationship Reconciler (whose implementation is not present in the
repository sources): adding an element to a collection is a no-op when the
element is already present, otherwise it is appended at the end.  This realises
"adding the new provenance id to the existing provenance set (idempotent —
re-adding the same provenance id is a no-op)" and "concatenating the new
description onto the existing description with a separator" together with the
requirement that re-ingesting the same fragment "must not duplicate"
descriptions. -/
def insertIfAbsent {α : Type} [DecidableEq α] (x : α) (xs : List α) : List α :=
  if x ∈ xs then xs else xs ++ [x]

/-- Modelled from the spec: a Persistent Graph entity record.  `entity_types`
is the multi-valued type set, `descriptions` the accumulated description
segments (rendered by joining with a separator), `source_ids` the provenance
set. -/
structure GEntity where
  entity_name : String
  entity_types : List String
  descriptions : List String
  source_ids : List String
deriving DecidableEq, Repr

/-- Modelled from the spec: a Persistent Graph relationship record, keyed by
the normalized (lexicographically ordered) endpoint pair. -/
structure GRelationship where
  src_id : String
  tgt_id : String
  descriptions : List String
  keyword_sets : List String
  weight : ℚ
  source_ids : List String
deriving DecidableEq, Repr

/-- Modelled from the spec: the Persistent Graph — entities keyed by
`entity_name`, relationships keyed by the unordered endpoint pair, plus the
appended chunks. -/
structure GGraph where
  entities : List GEntity
  relationships : List GRelationship
  chunks : List KGChunk
deriving DecidableEq, Repr

/-- Lookup of an entity record by exact, case-preserving `entity_name`. -/
def lookupEntity (name : String) : List GEntity → Option GEntity
  | [] => none
  | g :: gs => if g.entity_name = name then some g else lookupEntity name gs

/-- Modelled from the spec: the Reconciler's entity merge (its implementation
is not in the repository sources).  Look up by exact `entity_name`; if absent,
insert as-is; if present, take the union of entity types, accumulate the
description, and add the provenance id to the provenance set. -/
def upsertEntity (e : KGEntity) : List GEntity → List GEntity
  | [] => [{ entity_name := e.entity_name, entity_types := [e.entity_type],
             descriptions := [e.description], source_ids := [e.source_id] }]
  | g :: gs =>
    if g.entity_name = e.entity_name then
      { g with entity_types := insertIfAbsent e.entity_type g.entity_types
               descriptions := insertIfAbsent e.description g.descriptions
               source_ids := insertIfAbsent e.source_id g.source_ids } :: gs
    else g :: upsertEntity e gs

/-- Lexicographic less-or-equal on character lists, by code point. -/
def lexLe : List Char → List Char → Bool
  | [], _ => true
  | _ :: _, [] => false
  | a :: as, b :: bs =>
    if a < b then true
    else if b < a then false
    else lexLe as bs

/-- Lexicographic less-or-equal on strings, by code point. -/
def strLe (a b : String) : Bool := lexLe a.data b.data

/-- Modelled from the spec: relationship endpoint pairs are normalized
(lexicographically ordered) before lookup so that (A,B) and (B,A) are
recognized as the same relationship. -/
def normPair (a b : String) : String × String :=
  if strLe a b then (a, b) else (b, a)

/-- Lookup of a relationship record by its normalized endpoint pair. -/
def lookupRel (key : String × String) : List GRelationship → Option GRelationship
  | [] => none
  | g :: gs => if (g.src_id, g.tgt_id) = key then some g else lookupRel key gs

/-- Modelled from the spec: the Reconciler's relationship merge (its
implementation is not in the repository sources).  Look up by the normalized
endpoint pair; if absent, insert; if present, accumulate the description, take
the maximum of the two weights, union the keyword tag sets, and add the
provenance id. -/
def upsertRel (r : KGRelationship) : List GRelationship → List GRelationship
  | [] =>
    [{ src_id := (normPair r.src_id r.tgt_id).1, tgt_id := (normPair r.src_id r.tgt_id).2,
       descriptions := [r.description], keyword_sets := [r.keywords],
       weight := r.weight, source_ids := [r.source_id] }]
  | g :: gs =>
    if (g.src_id, g.tgt_id) = normPair r.src_id r.tgt_id then
      { g with descriptions := insertIfAbsent r.description g.descriptions
               keyword_sets := insertIfAbsent r.keywords g.keyword_sets
               weight := max g.weight r.weight
               source_ids := insertIfAbsent r.source_id g.source_ids } :: gs
    else g :: upsertRel r gs

/-- Modelled from the spec: merging one Graph Fragment into the Persistent
Graph — every fragment entity, relationship and chunk is merged in order.
Chunk addition is deduplicated so that re-ingesting the same fragment leaves
the Persistent Graph identical, as the specification's merge-idempotence
property requires. -/
def mergeFragment (g : GGraph) (kg : CustomKG) : GGraph :=
  { entities := kg.entities.foldl (fun acc e => upsertEntity e acc) g.entities
    relationships := kg.relationships.foldl (fun acc r => upsertRel r acc) g.relationships
    chunks := kg.chunks.foldl (fun acc c => insertIfAbsent c acc) g.chunks }

/-- A fragment entity is absorbed in an entity list when the record stored
under its name already carries its type, description and provenance id. -/
def entityAbsorbed (e : KGEntity) (L : List GEntity) : Prop :=
  ∃ g, lookupEntity e.entity_name L = some g ∧ e.entity_type ∈ g.entity_types ∧
    e.description ∈ g.descriptions ∧ e.source_id ∈ g.source_ids

/-- The entity record created when a fragment entity is inserted as-is. -/
def freshEntityRec (e : KGEntity) : GEntity :=
  { entity_name := e.entity_name, entity_types := [e.entity_type],
    descriptions := [e.description], source_ids := [e.source_id] }

/-- The entity record resulting from merging a fragment entity into a stored
record: type-set union, description accumulation, provenance-set addition. -/
def mergeEntityRec (g : GEntity) (e : KGEntity) : GEntity :=
  { g with entity_types := insertIfAbsent e.entity_type g.entity_types
           descriptions := insertIfAbsent e.description g.descriptions
           source_ids := insertIfAbsent e.source_id g.source_ids }

/-- The relationship record created when a fragment relationship is inserted. -/
def freshRelRec (r : KGRelationship) : GRelationship :=
  { src_id := (normPair r.src_id r.tgt_id).1, tgt_id := (normPair r.src_id r.tgt_id).2,
    descriptions := [r.description], keyword_sets := [r.keywords],
    weight := r.weight, source_ids := [r.source_id] }

/-- The relationship record resulting from merging a fragment relationship
into a stored record: description accumulation, keyword union, weight maximum,
provenance-set addition. -/
def mergeRelRec (g : GRelationship) (r : KGRelationship) : GRelationship :=
  { g with descriptions := insertIfAbsent r.description g.descriptions
           keyword_sets := insertIfAbsent r.keywords g.keyword_sets
           weight := max g.weight r.weight
           source_ids := insertIfAbsent r.source_id g.source_ids }

/-- A fragment relationship is absorbed in a relationship list when the record
stored under its normalized endpoint pair already carries its description,
keywords and provenance id, with at least its weight. -/
def relAbsorbed (r : KGRelationship) (L : List GRelationship) : Prop :=
  ∃ g, lookupRel (normPair r.src_id r.tgt_id) L = some g ∧
    r.description ∈ g.descriptions ∧ r.keywords ∈ g.keyword_sets ∧
    r.source_id ∈ g.source_ids ∧ r.weight ≤ g.weight

/-- Modelled from the spec: a packet record as consumed from the capture
layer — `{timestamp, src_ip, dst_ip, src_port, dst_port, protocol, length,
tcp_flags}` (the flow-tracking implementation, cicflowmeter_helpers.py, is
referenced by the repository docs but is not present in the sources). -/
structure Packet where
  timestamp : Nat
  src_ip : String
  src_port : Nat
  dst_ip : String
  dst_port : Nat
  protocol : Nat
  length : Nat
  tcp_flags : Nat
deriving DecidableEq, Repr

/-- Modelled from the spec: the FlowKey — an unordered-endpoint 5-tuple,
stored with its endpoints in canonical (lexicographic) order so that the two
directions of a flow produce the same key. -/
structure FlowKey where
  ip_a : String
  port_a : Nat
  ip_b : String
  port_b : Nat
  protocol : Nat
deriving DecidableEq, Repr

/-- Order on endpoints: by IP string (lexicographically), then by port. -/
def endpointLe (a b : String × Nat) : Bool :=
  if a.1 = b.1 then Nat.ble a.2 b.2 else strLe a.1 b.1

/-- The FlowKey of a packet: its endpoints in canonical order, plus the
protocol. -/
def flowKeyOf (p : Packet) : FlowKey :=
  if endpointLe (p.src_ip, p.src_port) (p.dst_ip, p.dst_port) then
    { ip_a := p.src_ip, port_a := p.src_port, ip_b := p.dst_ip, port_b := p.dst_port,
      protocol := p.protocol }
  else
    { ip_a := p.dst_ip, port_a := p.dst_port, ip_b := p.src_ip, port_b := p.src_port,
      protocol := p.protocol }

/-- Modelled from the spec: online (Welford-style) running statistics for
inter-arrival times — count, mean, variance accumulator, max, min — so that
per-flow memory stays constant. -/
structure IatStats where
  count : Nat
  mean : ℚ
  m2 : ℚ
  iat_max : Nat
  iat_min : Nat
deriving DecidableEq, Repr

/-- One Welford update of the inter-arrival statistics with a new sample. -/
def welford (s : IatStats) (x : Nat) : IatStats :=
  let n := s.count + 1
  let delta : ℚ := (x : ℚ) - s.mean
  let mean := s.mean + delta / (n : ℚ)
  { count := n
    mean := mean
    m2 := s.m2 + delta * ((x : ℚ) - mean)
    iat_max := Nat.max s.iat_max x
    iat_min := if s.count = 0 then x else Nat.min s.iat_min x }

/-- Modelled from the spec: the mutable FlowRecord aggregate keyed by FlowKey —
first/last-seen timestamps, per-direction packet and byte counters,
inter-arrival running statistics and accumulated TCP flags.  The direction of
a packet is forward when its source endpoint is the flow's initiating
endpoint. -/
structure FlowRecord where
  key : FlowKey
  init_src_ip : String
  init_src_port : Nat
  first_seen : Nat
  last_seen : Nat
  fwd_packets : Nat
  bwd_packets : Nat
  fwd_bytes : Nat
  bwd_bytes : Nat
  iat : IatStats
  flags_seen : Nat
deriving DecidableEq, Repr

/-- The fresh FlowRecord created by the first packet of a flow. -/
def newRecord (p : Packet) : FlowRecord :=
  { key := flowKeyOf p
    init_src_ip := p.src_ip
    init_src_port := p.src_port
    first_seen := p.timestamp
    last_seen := p.timestamp
    fwd_packets := 1
    bwd_packets := 0
    fwd_bytes := p.length
    bwd_bytes := 0
    iat := { count := 0, mean := 0, m2 := 0, iat_max := 0, iat_min := 0 }
    flags_seen := p.tcp_flags }

/-- Updating an existing FlowRecord with a further packet of the same flow:
counters, inter-arrival statistics and the last-seen timestamp. -/
def updateRecord (r : FlowRecord) (p : Packet) : FlowRecord :=
  let fwd : Bool := p.src_ip = r.init_src_ip ∧ p.src_port = r.init_src_port
  { r with
    last_seen := p.timestamp
    fwd_packets := if fwd then r.fwd_packets + 1 else r.fwd_packets
    bwd_packets := if fwd then r.bwd_packets else r.bwd_packets + 1
    fwd_bytes := if fwd then r.fwd_bytes + p.length else r.fwd_bytes
    bwd_bytes := if fwd then r.bwd_bytes else r.bwd_bytes + p.length
    iat := welford r.iat (p.timestamp - r.last_seen)
    flags_seen := Nat.lor r.flags_seen p.tcp_flags }

/-- Modelled from the spec: `observe`'s routing step — compute the packet's
FlowKey; if a record with that key exists, update it in place, otherwise
create a new record. -/
def updateFlow (p : Packet) : List FlowRecord → List FlowRecord
  | [] => [newRecord p]
  | r :: rs => if r.key = flowKeyOf p then updateRecord r p :: rs else r :: updateFlow p rs

/-- Modelled from the spec: the Flow Aggregation Table configuration surface —
`idle_timeout_seconds`, `max_flow_duration_seconds`, `max_flows_in_memory`
(with its low-water mark) and `packets_per_gc`. -/
structure AggConfig where
  idle_timeout : Nat
  max_duration : Nat
  max_flows_in_memory : Nat
  low_water : Nat
  packets_per_gc : Nat
deriving DecidableEq, Repr

/-- Modelled from the spec: a flow is eligible for finalization when
`now - last_seen > idle_timeout` OR `now - first_seen > max_duration`. -/
def eligibleForFinalization (cfg : AggConfig) (now : Nat) (r : FlowRecord) : Bool :=
  decide (cfg.idle_timeout < now - r.last_seen) ||
    decide (cfg.max_duration < now - r.first_seen)

/-- Modelled from the spec: the periodic sweep splits the table into the kept
records and the timeout-eligible records, which are finalized. -/
def sweepRecords (cfg : AggConfig) (now : Nat) (recs : List FlowRecord) :
    List FlowRecord × List FlowRecord :=
  (recs.filter (fun r => !(eligibleForFinalization cfg now r)),
   recs.filter (fun r => eligibleForFinalization cfg now r))

/-- Remove the record with the smallest `last_seen` (the least-recently
updated flow) from a list, returning it and the remainder. -/
def removeMinLastSeen : List FlowRecord → Option (FlowRecord × List FlowRecord)
  | [] => none
  | r :: rs =>
    match removeMinLastSeen rs with
    | none => some (r, [])
    | some (m, rest) =>
      if r.last_seen ≤ m.last_seen then some (r, rs) else some (m, r :: rest)

/-- Modelled from the spec: capacity eviction — repeatedly evict the
least-recently-updated flow until the table is at or below the low-water
mark.  The fuel argument bounds the recursion by the list length. -/
def evictSteps : Nat → List FlowRecord → Nat → List FlowRecord × List FlowRecord
  | 0, recs, _ => (recs, [])
  | fuel + 1, recs, low =>
    if recs.length ≤ low then (recs, [])
    else
      match removeMinLastSeen recs with
      | none => (recs, [])
      | some (m, rest) =>
        let res := evictSteps fuel rest low
        (res.1, m :: res.2)

/-- Evict least-recently-updated flows until at or below the low-water mark. -/
def evictLRU (recs : List FlowRecord) (low : Nat) : List FlowRecord × List FlowRecord :=
  evictSteps recs.length recs low

/-- The capacity-based eviction step: when the hard cap is exceeded, evict
least-recently-updated flows down to the low-water mark; the evicted flows
are finalized immediately regardless of timeout. -/
def capacityStep (cfg : AggConfig) (recs : List FlowRecord) :
    List FlowRecord × List FlowRecord :=
  if cfg.max_flows_in_memory < recs.length then evictLRU recs cfg.low_water
  else (recs, [])

/-- The periodic-sweep step: every `packets_per_gc` observed packets, scan for
timeout-eligible flows and finalize them. -/
def gcStep (cfg : AggConfig) (now seen : Nat) (recs : List FlowRecord) :
    List FlowRecord × List FlowRecord :=
  if cfg.packets_per_gc ≠ 0 ∧ seen % cfg.packets_per_gc = 0 then
    sweepRecords cfg now recs
  else (recs, [])

/-- Modelled from the spec: the Flow Aggregation Table — the in-progress
records, the finalized records, and the observed-packet counter that drives
the periodic sweep. -/
structure AggTable where
  records : List FlowRecord
  finalized : List FlowRecord
  packets_seen : Nat
deriving DecidableEq, Repr

/-- The empty Flow Aggregation Table. -/
def emptyTable : AggTable := { records := [], finalized := [], packets_seen := 0 }

/-- Modelled from the spec: `observe(packet)` — route the packet to its
FlowRecord, bump the packet counter, run the periodic sweep when due, then
enforce the capacity cap by LRU eviction. -/
def observe (cfg : AggConfig) (t : AggTable) (p : Packet) : AggTable :=
  let recs1 := updateFlow p t.records
  let seen := t.packets_seen + 1
  let swept := gcStep cfg p.timestamp seen recs1
  let capped := capacityStep cfg swept.1
  { records := capped.1
    finalized := t.finalized ++ swept.2 ++ capped.2
    packets_seen := seen }

/-- Observing a whole packet sequence in order. -/
def observeAll (cfg : AggConfig) (t : AggTable) (ps : List Packet) : AggTable :=
  ps.foldl (observe cfg) t

/-- Modelled from the spec: the immutable Flow Summary produced by the Flow
Finalizer — duration and derived rates, with zero rates for a zero duration,
and a synthetic flow identifier derived from the FlowKey plus the first-seen
timestamp. -/
structure FlowSummary where
  flow_id : String
  duration : Nat
  total_packets : Nat
  total_bytes : Nat
  bytes_per_sec : ℚ
  packets_per_sec : ℚ
deriving DecidableEq, Repr

/-- The synthetic flow identifier: deterministically derived from the FlowKey
plus the first-seen timestamp. -/
def flowIdOf (k : FlowKey) (first_seen : Nat) : String :=
  k.ip_a ++ "-" ++ k.ip_b ++ "-" ++ toString k.port_a ++ "-" ++ toString k.port_b ++
    "-" ++ toString k.protocol ++ "-" ++ toString first_seen

/-- Modelled from the spec: the Flow Finalizer — a pure function of a
FlowRecord; rates are counters divided by the duration, defined as zero when
the duration is zero rather than failing. -/
def finalizeRecord (r : FlowRecord) : FlowSummary :=
  let d := r.last_seen - r.first_seen
  let pkts := r.fwd_packets + r.bwd_packets
  let byts := r.fwd_bytes + r.bwd_bytes
  { flow_id := flowIdOf r.key r.first_seen
    duration := d
    total_packets := pkts
    total_bytes := byts
    bytes_per_sec := if d = 0 then 0 else (byts : ℚ) / (d : ℚ)
    packets_per_sec := if d = 0 then 0 else (pkts : ℚ) / (d : ℚ) }

/-- Modelled from the spec: a raw packet record as uploaded, with unparsed
textual fields; a malformed packet is one whose numeric fields do not parse. -/
structure RawPacket where
  timestamp : String
  src_ip : String
  src_port : String
  dst_ip : String
  dst_port : String
  protocol : String
  length : String
  tcp_flags : String
deriving DecidableEq, Repr

/-- Parse a decimal numeral from characters, failing on any non-digit. -/
def parseNatAux : List Char → Nat → Option Nat
  | [], acc => some acc
  | c :: cs, acc =>
    if c.isDigit then parseNatAux cs (acc * 10 + (c.toNat - 48)) else none

/-- Parse a decimal numeral from a string; the empty string fails. -/
def parseNat? (s : String) : Option Nat :=
  match s.data with
  | [] => none
  | cs => parseNatAux cs 0

/-- Modelled from the spec: parsing one raw packet's fields; any unparseable
numeric field makes the whole packet malformed. -/
def parsePacket (r : RawPacket) : Option Packet :=
  match parseNat? r.timestamp, parseNat? r.src_port, parseNat? r.dst_port,
      parseNat? r.protocol, parseNat? r.length, parseNat? r.tcp_flags with
  | some ts, some sp, some dp, some pr, some len, some fl =>
    some { timestamp := ts, src_ip := r.src_ip, src_port := sp, dst_ip := r.dst_ip,
           dst_port := dp, protocol := pr, length := len, tcp_flags := fl }
  | _, _, _, _, _, _ => none

/-- Modelled from the spec: one step of batch ingestion — a malformed packet
is rejected individually (the rejection counter grows, the table is
untouched); a well-formed packet is observed. -/
def ingestStep (cfg : AggConfig) (s : AggTable × Nat) (r : RawPacket) : AggTable × Nat :=
  match parsePacket r with
  | some p => (observe cfg s.1 p, s.2)
  | none => (s.1, s.2 + 1)

/-- Modelled from the spec: ingesting a batch of raw packets returns the
resulting table together with the count of rejected packets — the report is
the only channel for partial failure; no packet aborts the batch. -/
def ingestBatch (cfg : AggConfig) (t : AggTable) (rs : List RawPacket) : AggTable × Nat :=
  rs.foldl (ingestStep cfg) (t, 0)

/-- The packet A:1000 → B:80 over TCP of the specification's example. -/
def packetForward : Packet :=
  { timestamp := 0, src_ip := "10.0.0.1", src_port := 1000, dst_ip := "10.0.0.2",
    dst_port := 80, protocol := 6, length := 100, tcp_flags := 0 }

/-- The reply packet B:80 → A:1000 over TCP of the specification's example. -/
def packetReply : Packet :=
  { timestamp := 1, src_ip := "10.0.0.2", src_port := 80, dst_ip := "10.0.0.1",
    dst_port := 1000, protocol := 6, length := 60, tcp_flags := 0 }

/-- A FlowRecord whose single packet arrived at t = 0. -/
def idleRecord : FlowRecord :=
  newRecord (Packet.mk 0 "10.0.0.1" 1000 "10.0.0.2" 80 6 100 0)

/-- A raw packet whose source port does not parse as a number. -/
def badPacket : RawPacket :=
  { timestamp := "0", src_ip := "10.0.0.1", src_port := "xx", dst_ip := "10.0.0.2",
    dst_port := "80", protocol := "6", length := "100", tcp_flags := "0" }

/-- A raw packet with all fields well-formed. -/
def goodPacket : RawPacket :=
  { timestamp := "0", src_ip := "10.0.0.1", src_port := "1000", dst_ip := "10.0.0.2",
    dst_port := "80", protocol := "6", length := "100", tcp_flags := "0" }

/-- C1 counterexample: ingesting the specification's example flow alone through
`convert_to_custom_kg` yields 2 entities, not the 4 entities the claim states. -/
theorem c1_counterexample_two_entities_not_four :
    (convert_to_custom_kg [exampleFlow]).entities.length = 2 ∧
    (convert_to_custom_kg [exampleFlow]).entities.length ≠ 4 := by
  constructor
  · rfl
  · decide

/-- C1 (amended): for every single flow ingested alone, `convert_to_custom_kg`
produces exactly 2 entities (the source IP and the destination IP, in that
order), exactly one relationship linking them, and exactly one chunk; for every
flow it emits one entity per endpoint IP role and no port, protocol, or
flow-identifier entities. -/
theorem c1_single_flow_fragment_shape (f : Flow) :
    (convert_to_custom_kg [f]).entities.length = 2 ∧
    (convert_to_custom_kg [f]).entities.map KGEntity.entity_name = [f.src_ip, f.dst_ip] ∧
    (convert_to_custom_kg [f]).relationships.length = 1 ∧
    (convert_to_custom_kg [f]).chunks.length = 1 := by
  refine ⟨rfl, ?_, rfl, rfl⟩
  simp [convert_to_custom_kg, entitiesOfFlow]

/-- C10: for every list of flow records, the fragment produced by
`convert_to_custom_kg` is self-contained and provenance-consistent: every
relationship's `src_id` and `tgt_id` equal the `entity_name` of an entity
emitted in the same fragment with the same `source_id`, and every chunk,
entity and relationship carries the `Flow ID` of one of the input flows as
its `source_id`. -/
theorem c10_fragment_self_contained (flows : List Flow) :
    (∀ r ∈ (convert_to_custom_kg flows).relationships,
      (∃ e ∈ (convert_to_custom_kg flows).entities,
        e.entity_name = r.src_id ∧ e.source_id = r.source_id) ∧
      (∃ e ∈ (convert_to_custom_kg flows).entities,
        e.entity_name = r.tgt_id ∧ e.source_id = r.source_id)) ∧
    (∀ c ∈ (convert_to_custom_kg flows).chunks, ∃ f ∈ flows, c.source_id = f.flow_id) ∧
    (∀ e ∈ (convert_to_custom_kg flows).entities, ∃ f ∈ flows, e.source_id = f.flow_id) ∧
    (∀ r ∈ (convert_to_custom_kg flows).relationships, ∃ f ∈ flows, r.source_id = f.flow_id) := by
  induction flows with
  | nil => simp [convert_to_custom_kg]
  | cons f rest ih =>
    obtain ⟨ihRel, ihChunk, ihEnt, ihRelProv⟩ := ih
    refine ⟨?_, ?_, ?_, ?_⟩
    · intro r hr
      simp only [convert_to_custom_kg, List.mem_cons] at hr
      rcases hr with rfl | hr
      · constructor
        · refine ⟨(entitiesOfFlow f).head (by simp [entitiesOfFlow]), ?_, ?_, ?_⟩ <;>
            simp [convert_to_custom_kg, entitiesOfFlow, relationshipOfFlow]
        · refine ⟨(entitiesOfFlow f).getLast (by simp [entitiesOfFlow]), ?_, ?_, ?_⟩ <;>
            simp [convert_to_custom_kg, entitiesOfFlow, relationshipOfFlow]
      · obtain ⟨⟨e1, he1, h1⟩, ⟨e2, he2, h2⟩⟩ := ihRel r hr
        constructor
        · exact ⟨e1, by simp [convert_to_custom_kg, he1], h1⟩
        · exact ⟨e2, by simp [convert_to_custom_kg, he2], h2⟩
    · intro c hc
      simp only [convert_to_custom_kg, List.mem_cons] at hc
      rcases hc with rfl | hc
      · exact ⟨f, by simp, rfl⟩
      · obtain ⟨g, hg, hgid⟩ := ihChunk c hc
        exact ⟨g, by simp [hg], hgid⟩
    · intro e he
      simp only [convert_to_custom_kg, List.mem_append] at he
      rcases he with he | he
      · refine ⟨f, by simp, ?_⟩
        simp only [entitiesOfFlow, List.mem_cons, List.mem_singleton] at he
        rcases he with rfl | rfl | h
        · rfl
        · rfl
        · cases h
      · obtain ⟨g, hg, hgid⟩ := ihEnt e he
        exact ⟨g, by simp [hg], hgid⟩
    · intro r hr
      simp only [convert_to_custom_kg, List.mem_cons] at hr
      rcases hr with rfl | hr
      · exact ⟨f, by simp, rfl⟩
      · obtain ⟨g, hg, hgid⟩ := ihRelProv r hr
        exact ⟨g, by simp [hg], hgid⟩

/-- C10 witness: the theorem applied to the concrete example flow, at the
concrete relationship the fragment contains. -/
theorem c10_witness :
    relationshipOfFlow exampleFlow ∈ (convert_to_custom_kg [exampleFlow]).relationships ∧
    (∃ e ∈ (convert_to_custom_kg [exampleFlow]).entities,
      e.entity_name = (relationshipOfFlow exampleFlow).src_id ∧
      e.source_id = (relationshipOfFlow exampleFlow).source_id) := by
  have hmem : relationshipOfFlow exampleFlow ∈
      (convert_to_custom_kg [exampleFlow]).relationships := by
    simp [convert_to_custom_kg]
  exact ⟨hmem, ((c10_fragment_self_contained [exampleFlow]).1 _ hmem).1⟩

theorem mem_insertIfAbsent_self {α : Type} [DecidableEq α] (x : α) (xs : List α) :
    x ∈ insertIfAbsent x xs := by
  unfold insertIfAbsent
  split <;> simp_all

theorem mem_insertIfAbsent_of_mem {α : Type} [DecidableEq α] {x : α} (y : α)
    {xs : List α} (h : x ∈ xs) : x ∈ insertIfAbsent y xs := by
  unfold insertIfAbsent
  split <;> simp_all

theorem insertIfAbsent_eq_of_mem {α : Type} [DecidableEq α] {x : α} {xs : List α}
    (h : x ∈ xs) : insertIfAbsent x xs = xs := by
  unfold insertIfAbsent
  exact if_pos h

theorem nodup_insertIfAbsent {α : Type} [DecidableEq α] (x : α) {xs : List α}
    (h : xs.Nodup) : (insertIfAbsent x xs).Nodup := by
  unfold insertIfAbsent
  split
  · exact h
  · next hx => simp [List.nodup_append, h, hx]

theorem absorbed_foldl {α σ : Type} (up : σ → α → σ) (abs : α → σ → Prop)
    (hC : ∀ a b s, abs a s → abs a (up s b)) :
    ∀ (es : List α) (s : σ) (a : α), abs a s → abs a (es.foldl up s)
  | [], _, _, h => h
  | e :: es, s, a, h => absorbed_foldl up abs hC es (up s e) a (hC a e s h)

theorem absorbed_of_mem_foldl {α σ : Type} (up : σ → α → σ) (abs : α → σ → Prop)
    (hB : ∀ a s, abs a (up s a)) (hC : ∀ a b s, abs a s → abs a (up s b)) :
    ∀ (es : List α) (s : σ) (a : α), a ∈ es → abs a (es.foldl up s) := by
  intro es
  induction es with
  | nil => intro s a h; cases h
  | cons e es ih =>
    intro s a h
    rcases List.mem_cons.mp h with rfl | h
    · exact absorbed_foldl up abs hC es (up s a) a (hB a s)
    · exact ih (up s e) a h

theorem foldl_fixed {α σ : Type} (up : σ → α → σ) (abs : α → σ → Prop)
    (hA : ∀ a s, abs a s → up s a = s) :
    ∀ (es : List α) (s : σ), (∀ a ∈ es, abs a s) → es.foldl up s = s := by
  intro es
  induction es with
  | nil => intro s _; rfl
  | cons e es ih =>
    intro s h
    rw [List.foldl_cons, hA e s (h e (by simp))]
    exact ih s (fun a ha => h a (by simp [ha]))

theorem foldl_foldl_self {α σ : Type} (up : σ → α → σ) (abs : α → σ → Prop)
    (hA : ∀ a s, abs a s → up s a = s) (hB : ∀ a s, abs a (up s a))
    (hC : ∀ a b s, abs a s → abs a (up s b)) (es : List α) (s : σ) :
    es.foldl up (es.foldl up s) = es.foldl up s :=
  foldl_fixed up abs hA es _ (fun a ha => absorbed_of_mem_foldl up abs hB hC es s a ha)

theorem upsertEntity_eq_of_absorbed (e : KGEntity) :
    ∀ L : List GEntity, entityAbsorbed e L → upsertEntity e L = L := by
  intro L
  induction L with
  | nil =>
    intro h
    obtain ⟨g, hg, -⟩ := h
    simp [lookupEntity] at hg
  | cons g gs ih =>
    intro h
    obtain ⟨g', hg', ht, hd, hs⟩ := h
    by_cases hname : g.entity_name = e.entity_name
    · simp only [lookupEntity, if_pos hname] at hg'
      injection hg' with hg'
      subst hg'
      simp only [upsertEntity, if_pos hname]
      rw [insertIfAbsent_eq_of_mem ht, insertIfAbsent_eq_of_mem hd,
        insertIfAbsent_eq_of_mem hs]
    · simp only [lookupEntity, if_neg hname] at hg'
      simp only [upsertEntity, if_neg hname]
      rw [ih ⟨g', hg', ht, hd, hs⟩]

theorem lookupEntity_upsertEntity_self (e : KGEntity) :
    ∀ L : List GEntity, lookupEntity e.entity_name (upsertEntity e L) =
      some ((lookupEntity e.entity_name L).elim (freshEntityRec e) (fun g => mergeEntityRec g e)) := by
  intro L
  induction L with
  | nil => simp [upsertEntity, lookupEntity, freshEntityRec]
  | cons g gs ih =>
    by_cases hname : g.entity_name = e.entity_name
    · simp [upsertEntity, lookupEntity, if_pos hname, hname, mergeEntityRec]
    · simp only [upsertEntity, if_neg hname, lookupEntity, hname, if_false, if_neg hname, ih]

theorem lookupEntity_upsertEntity_ne (e : KGEntity) (n : String) (hn : n ≠ e.entity_name) :
    ∀ L : List GEntity, lookupEntity n (upsertEntity e L) = lookupEntity n L := by
  intro L
  induction L with
  | nil =>
    have h1 : e.entity_name ≠ n := Ne.symm hn
    simp only [upsertEntity, lookupEntity, if_neg h1]
  | cons g gs ih =>
    by_cases hname : g.entity_name = e.entity_name
    · have hgn : g.entity_name ≠ n := fun h => hn (h ▸ hname)
      simp only [upsertEntity, if_pos hname, lookupEntity, if_neg hgn]
    · by_cases hg : g.entity_name = n
      · simp only [upsertEntity, if_neg hname, lookupEntity, if_pos hg]
      · simp only [upsertEntity, if_neg hname, lookupEntity, if_neg hg, ih]

theorem lookupRel_upsertRel_self (r : KGRelationship) :
    ∀ L : List GRelationship, lookupRel (normPair r.src_id r.tgt_id) (upsertRel r L) =
      some ((lookupRel (normPair r.src_id r.tgt_id) L).elim (freshRelRec r) (fun g => mergeRelRec g r)) := by
  intro L
  induction L with
  | nil => simp [upsertRel, lookupRel, freshRelRec]
  | cons g gs ih =>
    by_cases hkey : (g.src_id, g.tgt_id) = normPair r.src_id r.tgt_id
    · simp [upsertRel, lookupRel, if_pos hkey, hkey, mergeRelRec]
    · simp only [upsertRel, if_neg hkey, lookupRel, hkey, if_false, if_neg hkey, ih]

theorem lookupRel_upsertRel_ne (r : KGRelationship) (k : String × String)
    (hk : k ≠ normPair r.src_id r.tgt_id) :
    ∀ L : List GRelationship, lookupRel k (upsertRel r L) = lookupRel k L := by
  intro L
  induction L with
  | nil =>
    have h1 : normPair r.src_id r.tgt_id ≠ k := Ne.symm hk
    simp only [upsertRel, lookupRel, Prod.mk.eta, if_neg h1]
  | cons g gs ih =>
    by_cases hkey : (g.src_id, g.tgt_id) = normPair r.src_id r.tgt_id
    · have hgk : (g.src_id, g.tgt_id) ≠ k := fun h => hk (h ▸ hkey)
      simp only [upsertRel, if_pos hkey, lookupRel, if_neg hgk]
    · by_cases hg : (g.src_id, g.tgt_id) = k
      · simp only [upsertRel, if_neg hkey, lookupRel, if_pos hg]
      · simp only [upsertRel, if_neg hkey, lookupRel, if_neg hg, ih]

theorem upsertRel_eq_of_absorbed (r : KGRelationship) :
    ∀ L : List GRelationship, relAbsorbed r L → upsertRel r L = L := by
  intro L
  induction L with
  | nil =>
    intro h
    obtain ⟨g, hg, -⟩ := h
    simp [lookupRel] at hg
  | cons g gs ih =>
    intro h
    obtain ⟨g', hg', hd, hk, hs, hw⟩ := h
    by_cases hkey : (g.src_id, g.tgt_id) = normPair r.src_id r.tgt_id
    · simp only [lookupRel, if_pos hkey] at hg'
      injection hg' with hg'
      subst hg'
      simp only [upsertRel, if_pos hkey]
      rw [insertIfAbsent_eq_of_mem hd, insertIfAbsent_eq_of_mem hk,
        insertIfAbsent_eq_of_mem hs, max_eq_left hw]
    · simp only [lookupRel, if_neg hkey] at hg'
      simp only [upsertRel, if_neg hkey]
      rw [ih ⟨g', hg', hd, hk, hs, hw⟩]

theorem entityAbsorbed_upsert_self (e : KGEntity) (L : List GEntity) :
    entityAbsorbed e (upsertEntity e L) := by
  rcases h : lookupEntity e.entity_name L with - | g
  · refine ⟨freshEntityRec e, ?_, ?_, ?_, ?_⟩
    · rw [lookupEntity_upsertEntity_self, h]
      rfl
    · simp [freshEntityRec]
    · simp [freshEntityRec]
    · simp [freshEntityRec]
  · refine ⟨mergeEntityRec g e, ?_, ?_, ?_, ?_⟩
    · rw [lookupEntity_upsertEntity_self, h]
      rfl
    · exact mem_insertIfAbsent_self _ _
    · exact mem_insertIfAbsent_self _ _
    · exact mem_insertIfAbsent_self _ _

theorem entityAbsorbed_mono (a b : KGEntity) (L : List GEntity)
    (h : entityAbsorbed a L) : entityAbsorbed a (upsertEntity b L) := by
  obtain ⟨g, hg, ht, hd, hs⟩ := h
  by_cases hn : a.entity_name = b.entity_name
  · have hg' : lookupEntity b.entity_name L = some g := hn ▸ hg
    refine ⟨mergeEntityRec g b, ?_, mem_insertIfAbsent_of_mem _ ht,
      mem_insertIfAbsent_of_mem _ hd, mem_insertIfAbsent_of_mem _ hs⟩
    rw [hn, lookupEntity_upsertEntity_self, hg']
    rfl
  · exact ⟨g, by rw [lookupEntity_upsertEntity_ne b a.entity_name hn, hg], ht, hd, hs⟩

theorem relAbsorbed_upsert_self (r : KGRelationship) (L : List GRelationship) :
    relAbsorbed r (upsertRel r L) := by
  rcases h : lookupRel (normPair r.src_id r.tgt_id) L with - | g
  · refine ⟨freshRelRec r, ?_, ?_, ?_, ?_, ?_⟩
    · rw [lookupRel_upsertRel_self, h]
      rfl
    · simp [freshRelRec]
    · simp [freshRelRec]
    · simp [freshRelRec]
    · exact le_refl _
  · refine ⟨mergeRelRec g r, ?_, ?_, ?_, ?_, ?_⟩
    · rw [lookupRel_upsertRel_self, h]
      rfl
    · exact mem_insertIfAbsent_self _ _
    · exact mem_insertIfAbsent_self _ _
    · exact mem_insertIfAbsent_self _ _
    · exact le_max_right _ _

theorem relAbsorbed_mono (a b : KGRelationship) (L : List GRelationship)
    (h : relAbsorbed a L) : relAbsorbed a (upsertRel b L) := by
  obtain ⟨g, hg, hd, hk, hs, hw⟩ := h
  by_cases hn : normPair a.src_id a.tgt_id = normPair b.src_id b.tgt_id
  · have hg' : lookupRel (normPair b.src_id b.tgt_id) L = some g := hn ▸ hg
    refine ⟨mergeRelRec g b, ?_, mem_insertIfAbsent_of_mem _ hd,
      mem_insertIfAbsent_of_mem _ hk, mem_insertIfAbsent_of_mem _ hs,
      le_trans hw (le_max_left _ _)⟩
    rw [hn, lookupRel_upsertRel_self, hg']
    rfl
  · exact ⟨g, by rw [lookupRel_upsertRel_ne b _ hn, hg], hd, hk, hs, hw⟩

theorem lookupEntity_mem {n : String} : ∀ {L : List GEntity} {g : GEntity},
    lookupEntity n L = some g → g ∈ L := by
  intro L
  induction L with
  | nil => intro g h; simp [lookupEntity] at h
  | cons x xs ih =>
    intro g h
    by_cases hx : x.entity_name = n
    · simp only [lookupEntity, if_pos hx] at h
      injection h with h
      simp [h]
    · simp only [lookupEntity, if_neg hx] at h
      simp [ih h]

theorem lookupRel_mem {k : String × String} : ∀ {L : List GRelationship} {g : GRelationship},
    lookupRel k L = some g → g ∈ L := by
  intro L
  induction L with
  | nil => intro g h; simp [lookupRel] at h
  | cons x xs ih =>
    intro g h
    by_cases hx : (x.src_id, x.tgt_id) = k
    · simp only [lookupRel, if_pos hx] at h
      injection h with h
      simp [h]
    · simp only [lookupRel, if_neg hx] at h
      simp [ih h]

theorem upsertEntity_nodup_sources (e : KGEntity) :
    ∀ L : List GEntity, (∀ x ∈ L, x.source_ids.Nodup) →
      ∀ x ∈ upsertEntity e L, x.source_ids.Nodup := by
  intro L
  induction L with
  | nil =>
    intro _ x hx
    simp only [upsertEntity, List.mem_singleton] at hx
    subst hx
    simp
  | cons g gs ih =>
    intro h x hx
    by_cases hname : g.entity_name = e.entity_name
    · simp only [upsertEntity, if_pos hname, List.mem_cons] at hx
      rcases hx with rfl | hx
      · exact nodup_insertIfAbsent _ (h g (by simp))
      · exact h x (by simp [hx])
    · simp only [upsertEntity, if_neg hname, List.mem_cons] at hx
      rcases hx with rfl | hx
      · exact h x (by simp)
      · exact ih (fun y hy => h y (by simp [hy])) x hx

theorem upsertRel_nodup_sources (r : KGRelationship) :
    ∀ L : List GRelationship, (∀ x ∈ L, x.source_ids.Nodup) →
      ∀ x ∈ upsertRel r L, x.source_ids.Nodup := by
  intro L
  induction L with
  | nil =>
    intro _ x hx
    simp only [upsertRel, List.mem_singleton] at hx
    subst hx
    simp
  | cons g gs ih =>
    intro h x hx
    by_cases hkey : (g.src_id, g.tgt_id) = normPair r.src_id r.tgt_id
    · simp only [upsertRel, if_pos hkey, List.mem_cons] at hx
      rcases hx with rfl | hx
      · exact nodup_insertIfAbsent _ (h g (by simp))
      · exact h x (by simp [hx])
    · simp only [upsertRel, if_neg hkey, List.mem_cons] at hx
      rcases hx with rfl | hx
      · exact h x (by simp)
      · exact ih (fun y hy => h y (by simp [hy])) x hx

theorem foldl_preserves {α σ : Type} (up : σ → α → σ) (P : σ → Prop)
    (h : ∀ a s, P s → P (up s a)) :
    ∀ (es : List α) (s : σ), P s → P (es.foldl up s)
  | [], _, hs => hs
  | e :: es, s, hs => foldl_preserves up P h es (up s e) (h e s hs)

/-- C2: merging the same Graph Fragment twice leaves the Persistent Graph
identical to merging it once, and — provided the existing graph's provenance
sets are duplicate-free — the provenance set of each merged entity and
relationship contains each contributed provenance id exactly once. -/
theorem c2_merge_fragment_idempotent (g : GGraph) (kg : CustomKG) :
    mergeFragment (mergeFragment g kg) kg = mergeFragment g kg ∧
    ((∀ x ∈ g.entities, x.source_ids.Nodup) → ∀ e ∈ kg.entities,
      ∃ rec, lookupEntity e.entity_name (mergeFragment g kg).entities = some rec ∧
        rec.source_ids.count e.source_id = 1) ∧
    ((∀ x ∈ g.relationships, x.source_ids.Nodup) → ∀ r ∈ kg.relationships,
      ∃ rec, lookupRel (normPair r.src_id r.tgt_id) (mergeFragment g kg).relationships = some rec ∧
        rec.source_ids.count r.source_id = 1) := by
  refine ⟨?_, ?_, ?_⟩
  · simp only [mergeFragment, GGraph.mk.injEq]
    refine ⟨?_, ?_, ?_⟩
    · exact foldl_foldl_self _ entityAbsorbed
        (fun a s h => upsertEntity_eq_of_absorbed a s h)
        (fun a s => entityAbsorbed_upsert_self a s)
        (fun a b s h => entityAbsorbed_mono a b s h) kg.entities g.entities
    · exact foldl_foldl_self _ relAbsorbed
        (fun a s h => upsertRel_eq_of_absorbed a s h)
        (fun a s => relAbsorbed_upsert_self a s)
        (fun a b s h => relAbsorbed_mono a b s h) kg.relationships g.relationships
    · exact foldl_foldl_self _ (fun (c : KGChunk) (L : List KGChunk) => c ∈ L)
        (fun a s h => insertIfAbsent_eq_of_mem h)
        (fun a s => mem_insertIfAbsent_self a s)
        (fun a b s h => mem_insertIfAbsent_of_mem b h) kg.chunks g.chunks
  · intro hnd e he
    have habs : entityAbsorbed e (kg.entities.foldl (fun acc x => upsertEntity x acc) g.entities) :=
      absorbed_of_mem_foldl _ entityAbsorbed
        (fun a s => entityAbsorbed_upsert_self a s)
        (fun a b s h => entityAbsorbed_mono a b s h) kg.entities g.entities e he
    obtain ⟨rec, hrec, -, -, hsrc⟩ := habs
    have hall : ∀ x ∈ kg.entities.foldl (fun acc x => upsertEntity x acc) g.entities,
        x.source_ids.Nodup :=
      foldl_preserves _ (fun L => ∀ x ∈ L, x.source_ids.Nodup)
        (fun a s h => upsertEntity_nodup_sources a s h) kg.entities g.entities hnd
    exact ⟨rec, hrec, List.count_eq_one_of_mem (hall rec (lookupEntity_mem hrec)) hsrc⟩
  · intro hnd r hr
    have habs : relAbsorbed r (kg.relationships.foldl (fun acc x => upsertRel x acc) g.relationships) :=
      absorbed_of_mem_foldl _ relAbsorbed
        (fun a s => relAbsorbed_upsert_self a s)
        (fun a b s h => relAbsorbed_mono a b s h) kg.relationships g.relationships r hr
    obtain ⟨rec, hrec, -, -, hsrc, -⟩ := habs
    have hall : ∀ x ∈ kg.relationships.foldl (fun acc x => upsertRel x acc) g.relationships,
        x.source_ids.Nodup :=
      foldl_preserves _ (fun L => ∀ x ∈ L, x.source_ids.Nodup)
        (fun a s h => upsertRel_nodup_sources a s h) kg.relationships g.relationships hnd
    exact ⟨rec, hrec, List.count_eq_one_of_mem (hall rec (lookupRel_mem hrec)) hsrc⟩

/-- C2 witness: merging a concrete one-entity fragment into the empty graph,
the hypotheses hold and the merged record carries the provenance id once. -/
theorem c2_witness :
    (∀ x ∈ (GGraph.mk [] [] []).entities, x.source_ids.Nodup) ∧
    (∃ rec, lookupEntity "131.202.240.150"
        (mergeFragment (GGraph.mk [] [] [])
          (CustomKG.mk [] [KGEntity.mk "131.202.240.150" "IP" "Source IP" "flow-1"] [])).entities =
        some rec ∧ rec.source_ids.count "flow-1" = 1) := by
  have hnd : ∀ x ∈ (GGraph.mk [] [] []).entities, x.source_ids.Nodup := by
    intro x hx
    simp at hx
  refine ⟨hnd, ?_⟩
  exact (c2_merge_fragment_idempotent (GGraph.mk [] [] [])
    (CustomKG.mk [] [KGEntity.mk "131.202.240.150" "IP" "Source IP" "flow-1"] [])).2.1
    hnd (KGEntity.mk "131.202.240.150" "IP" "Source IP" "flow-1") (by simp)

/-- C3: merging a fragment relationship into a graph already holding a
relationship under the same normalized endpoint pair yields exactly the
maximum of the two weights. -/
theorem c3_merged_weight_is_max (L : List GRelationship) (r : KGRelationship)
    (old : GRelationship) (h : lookupRel (normPair r.src_id r.tgt_id) L = some old) :
    ∃ new, lookupRel (normPair r.src_id r.tgt_id) (upsertRel r L) = some new ∧
      new.weight = max old.weight r.weight := by
  refine ⟨mergeRelRec old r, ?_, rfl⟩
  rw [lookupRel_upsertRel_self, h]
  rfl

/-- C3 witness: merging weights 0.6 and 0.9 yields 0.9 — the maximum, not the
average 0.75 and not the most recent value. -/
theorem c3_witness :
    lookupRel (normPair "10.0.0.1" "10.0.0.2")
        [GRelationship.mk "10.0.0.1" "10.0.0.2" ["d"] ["k"] (6/10) ["s1"]] =
      some (GRelationship.mk "10.0.0.1" "10.0.0.2" ["d"] ["k"] (6/10) ["s1"]) ∧
    (∃ new, lookupRel (normPair "10.0.0.1" "10.0.0.2")
        (upsertRel (KGRelationship.mk "10.0.0.1" "10.0.0.2" "d2" "k2" (9/10) "s2")
          [GRelationship.mk "10.0.0.1" "10.0.0.2" ["d"] ["k"] (6/10) ["s1"]]) = some new ∧
      new.weight = max (6/10 : ℚ) (9/10) ∧ new.weight = 9/10 ∧
      new.weight ≠ (6/10 + 9/10) / 2) := by
  have hk : normPair "10.0.0.1" "10.0.0.2" = ("10.0.0.1", "10.0.0.2") := by decide
  have hlook : lookupRel (normPair "10.0.0.1" "10.0.0.2")
      [GRelationship.mk "10.0.0.1" "10.0.0.2" ["d"] ["k"] (6/10) ["s1"]] =
      some (GRelationship.mk "10.0.0.1" "10.0.0.2" ["d"] ["k"] (6/10) ["s1"]) := by
    rw [hk]
    simp [lookupRel]
  refine ⟨hlook, ?_⟩
  obtain ⟨new, hnew, hw⟩ := c3_merged_weight_is_max _
    (KGRelationship.mk "10.0.0.1" "10.0.0.2" "d2" "k2" (9/10) "s2") _ hlook
  refine ⟨new, hnew, hw, ?_, ?_⟩
  · rw [hw]
    norm_num
  · rw [hw]
    norm_num

/-- C8: merging a fragment entity whose type differs from the stored record's
types retains every previously stored type and adds the incoming type — no
merge overwrites or discards an existing entity type. -/
theorem c8_entity_type_set_retained (L : List GEntity) (e : KGEntity)
    (old : GEntity) (h : lookupEntity e.entity_name L = some old) :
    ∃ new, lookupEntity e.entity_name (upsertEntity e L) = some new ∧
      (∀ t ∈ old.entity_types, t ∈ new.entity_types) ∧
      e.entity_type ∈ new.entity_types := by
  refine ⟨mergeEntityRec old e, ?_, ?_, ?_⟩
  · rw [lookupEntity_upsertEntity_self, h]
    rfl
  · exact fun t ht => mem_insertIfAbsent_of_mem _ ht
  · exact mem_insertIfAbsent_self _ _

/-- C8 witness: an IP stored with type "IP" merged with an incoming
"Source IP" typing retains both types. -/
theorem c8_witness :
    lookupEntity "131.202.240.150" [GEntity.mk "131.202.240.150" ["IP"] ["d"] ["flow-1"]] =
      some (GEntity.mk "131.202.240.150" ["IP"] ["d"] ["flow-1"]) ∧
    (∃ new, lookupEntity "131.202.240.150"
        (upsertEntity (KGEntity.mk "131.202.240.150" "Source IP" "d2" "flow-2")
          [GEntity.mk "131.202.240.150" ["IP"] ["d"] ["flow-1"]]) = some new ∧
      "IP" ∈ new.entity_types ∧ "Source IP" ∈ new.entity_types) := by
  have hlook : lookupEntity "131.202.240.150"
      [GEntity.mk "131.202.240.150" ["IP"] ["d"] ["flow-1"]] =
      some (GEntity.mk "131.202.240.150" ["IP"] ["d"] ["flow-1"]) := by
    simp [lookupEntity]
  refine ⟨hlook, ?_⟩
  obtain ⟨new, hnew, hkeep, hadd⟩ := c8_entity_type_set_retained _
    (KGEntity.mk "131.202.240.150" "Source IP" "d2" "flow-2") _ hlook
  exact ⟨new, hnew, hkeep "IP" (by simp), hadd⟩

theorem lexLe_total : ∀ as bs : List Char, lexLe as bs = true ∨ lexLe bs as = true := by
  intro as
  induction as with
  | nil => intro bs; left; rfl
  | cons a as ih =>
    intro bs
    cases bs with
    | nil => right; rfl
    | cons b bs =>
      rcases lt_trichotomy a b with h | h | h
      · left; simp [lexLe, h]
      · subst h
        rcases ih bs with h' | h'
        · left; simp [lexLe, lt_irrefl, h']
        · right; simp [lexLe, lt_irrefl, h']
      · right; simp [lexLe, h]

theorem lexLe_antisymm : ∀ as bs : List Char,
    lexLe as bs = true → lexLe bs as = true → as = bs := by
  intro as
  induction as with
  | nil =>
    intro bs h1 h2
    cases bs with
    | nil => rfl
    | cons b bs => simp [lexLe] at h2
  | cons a as ih =>
    intro bs h1 h2
    cases bs with
    | nil => simp [lexLe] at h1
    | cons b bs =>
      rcases lt_trichotomy a b with h | h | h
      · simp [lexLe, h, asymm h] at h2
      · subst h
        rw [ih bs (by simpa [lexLe, lt_irrefl] using h1) (by simpa [lexLe, lt_irrefl] using h2)]
      · simp [lexLe, h, asymm h] at h1

theorem strLe_total (a b : String) : strLe a b = true ∨ strLe b a = true :=
  lexLe_total a.data b.data

theorem strLe_antisymm (a b : String) (h1 : strLe a b = true) (h2 : strLe b a = true) :
    a = b := by
  have h := lexLe_antisymm a.data b.data h1 h2
  cases a
  cases b
  exact congrArg String.mk h

theorem endpointLe_total (a b : String × Nat) :
    endpointLe a b = true ∨ endpointLe b a = true := by
  unfold endpointLe
  by_cases h : a.1 = b.1
  · rcases Nat.le_total a.2 b.2 with h' | h'
    · left; simp [h, Nat.ble_eq, h']
    · right; simp [h.symm, Nat.ble_eq, h']
  · rw [if_neg h, if_neg (fun hh => h hh.symm)]
    exact strLe_total a.1 b.1

theorem endpointLe_antisymm (a b : String × Nat)
    (h1 : endpointLe a b = true) (h2 : endpointLe b a = true) : a = b := by
  unfold endpointLe at h1 h2
  by_cases h : a.1 = b.1
  · rw [if_pos h] at h1
    rw [if_pos h.symm] at h2
    have hp : a.2 = b.2 := Nat.le_antisymm (Nat.le_of_ble_eq_true h1) (Nat.le_of_ble_eq_true h2)
    cases a
    cases b
    simp only at h hp
    rw [h, hp]
  · rw [if_neg h] at h1
    rw [if_neg (fun hh => h hh.symm)] at h2
    exact absurd (strLe_antisymm _ _ h1 h2) h

theorem flowKeyOf_reverse (p q : Packet)
    (hsi : q.src_ip = p.dst_ip) (hsp : q.src_port = p.dst_port)
    (hdi : q.dst_ip = p.src_ip) (hdp : q.dst_port = p.src_port)
    (hpr : q.protocol = p.protocol) :
    flowKeyOf q = flowKeyOf p := by
  unfold flowKeyOf
  rw [hsi, hsp, hdi, hdp, hpr]
  cases h1 : endpointLe (p.src_ip, p.src_port) (p.dst_ip, p.dst_port) with
  | false =>
    cases h2 : endpointLe (p.dst_ip, p.dst_port) (p.src_ip, p.src_port) with
    | false =>
      rcases endpointLe_total (p.src_ip, p.src_port) (p.dst_ip, p.dst_port) with h | h
      · rw [h1] at h; cases h
      · rw [h2] at h; cases h
    | true => simp [h1, h2]
  | true =>
    cases h2 : endpointLe (p.dst_ip, p.dst_port) (p.src_ip, p.src_port) with
    | false => simp [h1, h2]
    | true =>
      have heq := endpointLe_antisymm _ _ h2 h1
      have hip : p.dst_ip = p.src_ip := congrArg Prod.fst heq
      have hport : p.dst_port = p.src_port := congrArg Prod.snd heq
      simp [h1, h2, hip, hport]

theorem updateFlow_exists_key (p : Packet) :
    ∀ recs : List FlowRecord, ∃ r ∈ updateFlow p recs, r.key = flowKeyOf p := by
  intro recs
  induction recs with
  | nil => exact ⟨newRecord p, by simp [updateFlow], rfl⟩
  | cons r rs ih =>
    by_cases h : r.key = flowKeyOf p
    · exact ⟨updateRecord r p, by simp [updateFlow, if_pos h], h⟩
    · obtain ⟨x, hx, hk⟩ := ih
      exact ⟨x, by simp [updateFlow, if_neg h, hx], hk⟩

theorem updateFlow_length_of_exists (p : Packet) :
    ∀ recs : List FlowRecord, (∃ r ∈ recs, r.key = flowKeyOf p) →
      (updateFlow p recs).length = recs.length := by
  intro recs
  induction recs with
  | nil =>
    intro h
    obtain ⟨r, hr, -⟩ := h
    cases hr
  | cons r rs ih =>
    intro h
    by_cases hk : r.key = flowKeyOf p
    · simp [updateFlow, if_pos hk]
    · obtain ⟨x, hx, hxk⟩ := h
      rcases List.mem_cons.mp hx with rfl | hx'
      · exact absurd hxk hk
      · simp [updateFlow, if_neg hk, ih ⟨x, hx', hxk⟩]

/-- C4: two packets whose endpoint pairs match in either direction under the
same protocol have the same FlowKey, so `observe`'s routing step sends both to
the same FlowRecord — updating with the second packet never creates a new
record. -/
theorem c4_bidirectional_packets_same_record (p q : Packet)
    (hproto : q.protocol = p.protocol)
    (h : (q.src_ip = p.src_ip ∧ q.src_port = p.src_port ∧
          q.dst_ip = p.dst_ip ∧ q.dst_port = p.dst_port) ∨
         (q.src_ip = p.dst_ip ∧ q.src_port = p.dst_port ∧
          q.dst_ip = p.src_ip ∧ q.dst_port = p.src_port)) :
    flowKeyOf q = flowKeyOf p ∧
    ∀ recs : List FlowRecord,
      (updateFlow q (updateFlow p recs)).length = (updateFlow p recs).length := by
  have hkey : flowKeyOf q = flowKeyOf p := by
    rcases h with ⟨h1, h2, h3, h4⟩ | ⟨h1, h2, h3, h4⟩
    · unfold flowKeyOf
      rw [h1, h2, h3, h4, hproto]
    · exact flowKeyOf_reverse p q h1 h2 h3 h4 hproto
  refine ⟨hkey, ?_⟩
  intro recs
  obtain ⟨r, hr, hrk⟩ := updateFlow_exists_key p recs
  exact updateFlow_length_of_exists q _ ⟨r, hr, by rw [hkey, hrk]⟩

/-- C4 witness: the example packets (A:1000→B:80, TCP) and (B:80→A:1000, TCP)
have the same FlowKey and aggregate into one record. -/
theorem c4_witness :
    packetReply.protocol = packetForward.protocol ∧
    flowKeyOf packetReply = flowKeyOf packetForward ∧
    (updateFlow packetReply (updateFlow packetForward [])).length = 1 := by
  have h := c4_bidirectional_packets_same_record packetForward packetReply rfl
    (Or.inr ⟨rfl, rfl, rfl, rfl⟩)
  exact ⟨rfl, h.1, (h.2 []).trans rfl⟩

theorem removeMinLastSeen_cons_eq (r : FlowRecord) (rs : List FlowRecord) :
    removeMinLastSeen (r :: rs) =
      match removeMinLastSeen rs with
      | none => some (r, [])
      | some (m, rest) =>
        if r.last_seen ≤ m.last_seen then some (r, rs) else some (m, r :: rest) := rfl

theorem removeMinLastSeen_cons (r : FlowRecord) : ∀ rs : List FlowRecord,
    ∃ m rest, removeMinLastSeen (r :: rs) = some (m, rest) ∧ rest.length = rs.length := by
  intro rs
  induction rs generalizing r with
  | nil => exact ⟨r, [], rfl, rfl⟩
  | cons r2 rs ih =>
    obtain ⟨m, rest, hm, hlen⟩ := ih r2
    by_cases hle : r.last_seen ≤ m.last_seen
    · refine ⟨r, r2 :: rs, ?_, rfl⟩
      rw [removeMinLastSeen_cons_eq, hm]
      exact if_pos hle
    · refine ⟨m, r :: rest, ?_, by simp [hlen]⟩
      rw [removeMinLastSeen_cons_eq, hm]
      exact if_neg hle

theorem evictSteps_length_le : ∀ (fuel : Nat) (recs : List FlowRecord) (low : Nat),
    (evictSteps fuel recs low).1.length ≤ max low (recs.length - fuel) := by
  intro fuel
  induction fuel with
  | zero =>
    intro recs low
    simp [evictSteps]
  | succ fuel ih =>
    intro recs low
    by_cases hlow : recs.length ≤ low
    · simp only [evictSteps, if_pos hlow]
      exact le_max_of_le_left hlow
    · cases recs with
      | nil => exact absurd (Nat.zero_le low) hlow
      | cons r rs =>
        obtain ⟨m, rest, hm, hlen⟩ := removeMinLastSeen_cons r rs
        simp only [evictSteps, if_neg hlow, hm]
        have h := ih rest low
        rw [hlen] at h
        simpa [Nat.succ_sub_succ] using h

theorem evictLRU_length_le (recs : List FlowRecord) (low : Nat) :
    (evictLRU recs low).1.length ≤ low := by
  have h := evictSteps_length_le recs.length recs low
  simpa [evictLRU, Nat.sub_self] using h

theorem capacityStep_length_le (cfg : AggConfig)
    (hlw : cfg.low_water ≤ cfg.max_flows_in_memory) (recs : List FlowRecord) :
    (capacityStep cfg recs).1.length ≤ cfg.max_flows_in_memory := by
  unfold capacityStep
  by_cases hcap : cfg.max_flows_in_memory < recs.length
  · rw [if_pos hcap]
    exact le_trans (evictLRU_length_le _ _) hlw
  · rw [if_neg hcap]
    exact Nat.le_of_not_lt hcap

theorem observe_records_le (cfg : AggConfig)
    (hlw : cfg.low_water ≤ cfg.max_flows_in_memory) (t : AggTable) (p : Packet) :
    (observe cfg t p).records.length ≤ cfg.max_flows_in_memory := by
  have h := capacityStep_length_le cfg hlw
    (gcStep cfg p.timestamp (t.packets_seen + 1) (updateFlow p t.records)).1
  simpa [observe] using h

theorem observeAll_records_le (cfg : AggConfig)
    (hlw : cfg.low_water ≤ cfg.max_flows_in_memory) :
    ∀ (ps : List Packet) (t : AggTable),
      (observeAll cfg t ps).records.length ≤ max cfg.max_flows_in_memory t.records.length := by
  intro ps
  induction ps with
  | nil => intro t; exact le_max_right _ _
  | cons p ps ih =>
    intro t
    calc (observeAll cfg t (p :: ps)).records.length
        = (observeAll cfg (observe cfg t p) ps).records.length := rfl
      _ ≤ max cfg.max_flows_in_memory (observe cfg t p).records.length := ih (observe cfg t p)
      _ ≤ max cfg.max_flows_in_memory cfg.max_flows_in_memory :=
          max_le_max (le_refl _) (observe_records_le cfg hlw t p)
      _ = cfg.max_flows_in_memory := max_self _
      _ ≤ max cfg.max_flows_in_memory t.records.length := le_max_left _ _

/-- C5: with the low-water mark below the hard cap, the Flow Aggregation Table
never holds more than `max_flows_in_memory` in-progress FlowRecords, whatever
the packet sequence — capacity eviction finalizes least-recently-updated
flows first. -/
theorem c5_capacity_never_exceeded (cfg : AggConfig)
    (hlw : cfg.low_water ≤ cfg.max_flows_in_memory) (ps : List Packet) :
    (observeAll cfg emptyTable ps).records.length ≤ cfg.max_flows_in_memory := by
  have h := observeAll_records_le cfg hlw ps emptyTable
  simpa [emptyTable] using h

/-- C5 witness: with `max_flows_in_memory = 2` and low-water mark 1, observing
three packets that create three distinct flows leaves at most 2 records. -/
theorem c5_witness :
    (AggConfig.mk 100 1000 2 1 1000000).low_water ≤
      (AggConfig.mk 100 1000 2 1 1000000).max_flows_in_memory ∧
    (observeAll (AggConfig.mk 100 1000 2 1 1000000) emptyTable
      [Packet.mk 0 "10.0.0.1" 1 "10.0.0.2" 2 6 10 0,
       Packet.mk 1 "10.0.0.3" 1 "10.0.0.4" 2 6 10 0,
       Packet.mk 2 "10.0.0.5" 1 "10.0.0.6" 2 6 10 0]).records.length ≤ 2 :=
  ⟨by decide, c5_capacity_never_exceeded (AggConfig.mk 100 1000 2 1 1000000) (by decide) _⟩

/-- C6: with `idle_timeout = 5` and a flow whose last packet was at t = 0, the
flow is never finalization-eligible at or before t = 5 and is eligible at
every t > 5; the periodic sweep finalizes exactly the records the eligibility
predicate selects, and in general a record is eligible exactly when
`now - last_seen > idle_timeout` or `now - first_seen > max_duration`. -/
theorem c6_idle_timeout_eligibility (cfg : AggConfig) (r : FlowRecord)
    (hidle : cfg.idle_timeout = 5) (hdur : 5 ≤ cfg.max_duration)
    (hfirst : r.first_seen = 0) (hlast : r.last_seen = 0) :
    (∀ now : Nat, eligibleForFinalization cfg now r = true ↔ 5 < now) ∧
    (∀ now : Nat, now ≤ 5 → eligibleForFinalization cfg now r = false) ∧
    (∀ (now : Nat) (recs : List FlowRecord),
      r ∈ (sweepRecords cfg now recs).2 ↔
        r ∈ recs ∧ eligibleForFinalization cfg now r = true) ∧
    (∀ (cfg' : AggConfig) (r' : FlowRecord) (now : Nat),
      eligibleForFinalization cfg' now r' = true ↔
        (cfg'.idle_timeout < now - r'.last_seen ∨ cfg'.max_duration < now - r'.first_seen)) := by
  refine ⟨?_, ?_, ?_, ?_⟩
  · intro now
    simp only [eligibleForFinalization, hidle, hfirst, hlast, Nat.sub_zero,
      Bool.or_eq_true, decide_eq_true_eq]
    omega
  · intro now hn
    simp only [eligibleForFinalization, hidle, hfirst, hlast, Nat.sub_zero,
      Bool.or_eq_false_iff, decide_eq_false_iff_not]
    omega
  · intro now recs
    simp [sweepRecords, List.mem_filter]
  · intro cfg' r' now
    simp [eligibleForFinalization, Bool.or_eq_true, decide_eq_true_eq]

/-- C6 witness: with idle timeout 5 seconds, the t = 0 flow is eligible at
t = 6 and not eligible at t = 5. -/
theorem c6_witness :
    eligibleForFinalization (AggConfig.mk 5 100 10 5 50) 6 idleRecord = true ∧
    eligibleForFinalization (AggConfig.mk 5 100 10 5 50) 5 idleRecord = false := by
  have h := c6_idle_timeout_eligibility (AggConfig.mk 5 100 10 5 50) idleRecord
    rfl (by decide) rfl rfl
  exact ⟨(h.1 6).mpr (by decide), h.2.1 5 (le_refl 5)⟩

/-- C7: the Flow Finalizer maps every FlowRecord with equal first-seen and
last-seen timestamps (a single-packet flow) to a Flow Summary with duration 0
and both rate fields 0 — the rates are defined, not a division error. -/
theorem c7_zero_duration_zero_rates (r : FlowRecord) (h : r.first_seen = r.last_seen) :
    (finalizeRecord r).duration = 0 ∧ (finalizeRecord r).bytes_per_sec = 0 ∧
    (finalizeRecord r).packets_per_sec = 0 := by
  have hd : r.last_seen - r.first_seen = 0 := by omega
  refine ⟨?_, ?_, ?_⟩ <;> simp [finalizeRecord, hd]

/-- C7 witness: finalizing the record of a single observed packet yields
duration 0 and zero rates. -/
theorem c7_witness :
    (newRecord packetForward).first_seen = (newRecord packetForward).last_seen ∧
    (finalizeRecord (newRecord packetForward)).duration = 0 ∧
    (finalizeRecord (newRecord packetForward)).bytes_per_sec = 0 ∧
    (finalizeRecord (newRecord packetForward)).packets_per_sec = 0 := by
  have h := c7_zero_duration_zero_rates (newRecord packetForward) rfl
  exact ⟨rfl, h.1, h.2.1, h.2.2⟩

theorem ingest_foldl_spec (cfg : AggConfig) :
    ∀ (rs : List RawPacket) (t : AggTable) (n : Nat),
      rs.foldl (ingestStep cfg) (t, n) =
        ((rs.filterMap parsePacket).foldl (observe cfg) t,
         n + (rs.filter (fun x => (parsePacket x).isNone)).length) := by
  intro rs
  induction rs with
  | nil => intro t n; simp
  | cons r rs ih =>
    intro t n
    cases hp : parsePacket r with
    | some p =>
      have hstep : ingestStep cfg (t, n) r = (observe cfg t p, n) := by
        simp [ingestStep, hp]
      have hc : List.filterMap parsePacket (r :: rs) = p :: List.filterMap parsePacket rs := by
        simp [List.filterMap_cons, hp]
      have hf : List.filter (fun x => (parsePacket x).isNone) (r :: rs) =
          List.filter (fun x => (parsePacket x).isNone) rs := by
        simp [List.filter_cons, hp]
      rw [List.foldl_cons, hstep, ih, hc, hf, List.foldl_cons]
    | none =>
      have hstep : ingestStep cfg (t, n) r = (t, n + 1) := by
        simp [ingestStep, hp]
      have hc : List.filterMap parsePacket (r :: rs) = List.filterMap parsePacket rs := by
        simp [List.filterMap_cons, hp]
      have hf : List.filter (fun x => (parsePacket x).isNone) (r :: rs) =
          r :: List.filter (fun x => (parsePacket x).isNone) rs := by
        simp [List.filter_cons, hp]
      rw [List.foldl_cons, hstep, ih, hc, hf]
      simp only [List.length_cons, Prod.mk.injEq, eq_self_iff_true, true_and]
      omega

/-- C9: a malformed raw packet anywhere in a batch is rejected individually —
the resulting table state is exactly the state of the batch without it, the
rejection count grows by one, and for every batch the returned count equals
the number of malformed packets; `ingestBatch` is a total function, so no
exception escapes a batch call. -/
theorem c9_malformed_isolated (cfg : AggConfig) (t : AggTable)
    (rs1 rs2 : List RawPacket) (bad : RawPacket) (hbad : parsePacket bad = none) :
    (ingestBatch cfg t (rs1 ++ bad :: rs2)).1 = (ingestBatch cfg t (rs1 ++ rs2)).1 ∧
    (ingestBatch cfg t (rs1 ++ bad :: rs2)).2 = (ingestBatch cfg t (rs1 ++ rs2)).2 + 1 ∧
    ∀ rs : List RawPacket, (ingestBatch cfg t rs).2 =
      (rs.filter (fun x => (parsePacket x).isNone)).length := by
  refine ⟨?_, ?_, ?_⟩
  · unfold ingestBatch
    rw [ingest_foldl_spec, ingest_foldl_spec]
    simp [List.filterMap_append, List.filterMap_cons, hbad]
  · unfold ingestBatch
    rw [ingest_foldl_spec, ingest_foldl_spec]
    have hf : List.filter (fun x => (parsePacket x).isNone) (rs1 ++ bad :: rs2) =
        List.filter (fun x => (parsePacket x).isNone) rs1 ++
          bad :: List.filter (fun x => (parsePacket x).isNone) rs2 := by
      simp [List.filter_append, List.filter_cons, hbad]
    rw [hf]
    simp only [List.filter_append, List.length_append, List.length_cons]
    omega
  · intro rs
    unfold ingestBatch
    rw [ingest_foldl_spec]
    simp

/-- C9 witness: a batch containing a malformed packet yields the same table as
the batch without it, with the rejection count one higher. -/
theorem c9_witness :
    parsePacket badPacket = none ∧
    (ingestBatch (AggConfig.mk 15 180 50000 25000 5000) emptyTable
        [goodPacket, badPacket]).1 =
      (ingestBatch (AggConfig.mk 15 180 50000 25000 5000) emptyTable [goodPacket]).1 ∧
    (ingestBatch (AggConfig.mk 15 180 50000 25000 5000) emptyTable
        [goodPacket, badPacket]).2 =
      (ingestBatch (AggConfig.mk 15 180 50000 25000 5000) emptyTable [goodPacket]).2 + 1 := by
  have hbad : parsePacket badPacket = none := by decide
  have h := c9_malformed_isolated (AggConfig.mk 15 180 50000 25000 5000) emptyTable
    [goodPacket] [] badPacket hbad
  exact ⟨hbad, h.1, h.2.1⟩

end ThreatHunting
